import Mathlib

/-!
Verification of the texmgr core: the path/root resolver
(`src/texmgr/utils/fileops.py`) and the package-declaration parser and
installer driver (`src/texmgr/pkg/manager.py`), shallowly embedded in Lean.

Paths are modelled as lists of components from the filesystem root
(`[]` is the root, whose parent is itself, matching `Path.parent` at `/`).
A filesystem snapshot is a pair of boolean predicates `isFile` / `isDir`,
matching the read-only `Path.is_file()` / `Path.is_dir()` queries the
resolver performs.
-/

/-- Filesystem snapshot: the two read-only queries the resolver makes. -/
structure FS where
  isFile : List String → Bool
  isDir : List String → Bool

/-- Parent directory, as `pathlib.Path.parent`: drop the last component;
the root is its own parent. -/
def parent (p : List String) : List String := p.dropLast

/-- Iterated parent: the ancestor `i` upward steps from `p` (saturating at
the root). -/
def ancestorAt (p : List String) : Nat → List String
  | 0 => p
  | n + 1 => ancestorAt (parent p) n

/-- Loop body of `find_file` (fileops.py lines 174-183): `n` remaining
iterations of `for _ in range(max_depth + 1)`, current directory `cur`.
Checks `cur/filename`, stops at the root (`parent == self`), else ascends. -/
def findFileLoop (fs : FS) (filename : String) : Nat → List String → Option (List String)
  | 0, _ => none
  | n + 1, cur =>
    if fs.isFile (cur ++ [filename]) then some (cur ++ [filename])
    else if cur = parent cur then none
    else findFileLoop fs filename n (parent cur)

/-- Embedding of `find_file(start_path, filename, max_depth)` (fileops.py
lines 147-188), on a snapshot where no query raises: returns `none` when
`start` is not a directory, else walks upward for at most `max_depth + 1`
directories. -/
def find_file (fs : FS) (start : List String) (filename : String) (max_depth : Nat) :
    Option (List String) :=
  if fs.isDir start then findFileLoop fs filename (max_depth + 1) start else none

/-- Filesystem snapshot whose `is_file` query may raise (modelling an
OS-level fault during traversal); `.error` is a raised exception. -/
structure FSE where
  isFile : List String → Except String Bool
  isDir : List String → Bool

/-- Loop body of `find_file` over a fallible snapshot: the body of the
`try:` block, an exception propagating out of the loop. -/
def findFileLoopE (fs : FSE) (filename : String) : Nat → List String → Except String (Option (List String))
  | 0, _ => .ok none
  | n + 1, cur =>
    match fs.isFile (cur ++ [filename]) with
    | .error e => .error e
    | .ok true => .ok (some (cur ++ [filename]))
    | .ok false =>
      if cur = parent cur then .ok none
      else findFileLoopE fs filename n (parent cur)

/-- Embedding of `find_file` over a fallible snapshot: the `is_dir` guard
(line 169) runs first, and the `try/except` (lines 173-186) folds any
exception from the loop into the `None` result. -/
def find_fileE (fs : FSE) (start : List String) (filename : String) (max_depth : Nat) :
    Option (List String) :=
  if fs.isDir start then
    match findFileLoopE fs filename (max_depth + 1) start with
    | .ok r => r
    | .error _ => none
  else none

/-- Embedding of `detect_project_root(start_path)` (fileops.py lines
228-250): find `main.tex` upward from `start` with the default depth 5 and
return its parent. -/
def detect_project_root (fs : FS) (start : List String) : Option (List String) :=
  match find_file fs start "main.tex" 5 with
  | some result => some (parent result)
  | none => none

/-- Required files of a valid project directory (fileops.py line 277). -/
def required_files : List String := ["main.tex"]

/-- Required subdirectories of a valid project directory (fileops.py line 278). -/
def required_dirs : List String := ["format", "output", "text"]

/-- Embedding of `is_valid_project_dir(path)` (fileops.py lines 253-292):
every required file is a regular file and every required subdirectory is a
directory, directly under `path`. -/
def is_valid_project_dir (fs : FS) (path : List String) : Bool :=
  required_files.all (fun f => fs.isFile (path ++ [f])) &&
  required_dirs.all (fun d => fs.isDir (path ++ [d]))

-- Helper lemmas about `parent` and the traversal loop.

theorem parent_eq_self_iff (p : List String) : p = parent p ↔ p = [] := by
  cases p with
  | nil => simp [parent]
  | cons a l =>
    simp only [parent]
    constructor
    · intro h
      have hlen := congrArg List.length h
      simp [List.length_dropLast] at hlen
    · intro h
      exact absurd h (by simp)

theorem ancestorAt_nil (n : Nat) : ancestorAt [] n = [] := by
  induction n with
  | zero => rfl
  | succ n ih => simpa [ancestorAt, parent] using ih

theorem findFileLoop_found (fs : FS) (fn : String) :
    ∀ (n : Nat) (cur : List String) (i : Nat), i < n →
      fs.isFile (ancestorAt cur i ++ [fn]) = true →
      (∀ k, k < i → fs.isFile (ancestorAt cur k ++ [fn]) = false) →
      findFileLoop fs fn n cur = some (ancestorAt cur i ++ [fn]) := by
  intro n
  induction n with
  | zero => intro cur i hi; exact absurd hi (Nat.not_lt_zero i)
  | succ n ih =>
    intro cur i hi hfound hleast
    match i with
    | 0 =>
      simp only [ancestorAt] at hfound
      simp [findFileLoop, hfound, ancestorAt]
    | Nat.succ j =>
      have h0 : fs.isFile (cur ++ [fn]) = false := hleast 0 (Nat.succ_pos j)
      by_cases hroot : cur = parent cur
      · exfalso
        have hnil : cur = [] := (parent_eq_self_iff cur).mp hroot
        rw [hnil] at hfound h0
        rw [ancestorAt_nil] at hfound
        simp only [List.nil_append] at hfound h0
        rw [hfound] at h0
        exact Bool.noConfusion h0
      · have hrec := ih (parent cur) j (Nat.lt_of_succ_lt_succ hi) hfound
          (fun k hk => hleast (k + 1) (Nat.succ_lt_succ hk))
        simp only [findFileLoop, h0, if_neg hroot, if_false, Bool.false_eq_true]
        exact hrec

theorem findFileLoop_none (fs : FS) (fn : String) :
    ∀ (n : Nat) (cur : List String),
      (∀ k, k < n → fs.isFile (ancestorAt cur k ++ [fn]) = false) →
      findFileLoop fs fn n cur = none := by
  intro n
  induction n with
  | zero => intro cur _; rfl
  | succ n ih =>
    intro cur h
    have h0 : fs.isFile (cur ++ [fn]) = false := h 0 (Nat.succ_pos n)
    by_cases hroot : cur = parent cur
    · simp [findFileLoop, h0, if_pos hroot]
    · have hrec := ih (parent cur) (fun k hk => h (k + 1) (Nat.succ_lt_succ hk))
      simp only [findFileLoop, h0, if_neg hroot, if_false, Bool.false_eq_true]
      exact hrec

/-- C1: when `start` is a directory and the marker exists at the ancestor
`i ≤ max_depth` steps up — and at no closer examined directory — `find_file`
returns that first encountered path; when no ancestor within `max_depth`
steps holds the marker, `find_file` returns `none`. -/
theorem find_file_spec (fs : FS) (start : List String) (fn : String) (d : Nat)
    (hdir : fs.isDir start = true) :
    (∀ i, i ≤ d → fs.isFile (ancestorAt start i ++ [fn]) = true →
      (∀ k, k < i → fs.isFile (ancestorAt start k ++ [fn]) = false) →
      find_file fs start fn d = some (ancestorAt start i ++ [fn])) ∧
    ((∀ k, k ≤ d → fs.isFile (ancestorAt start k ++ [fn]) = false) →
      find_file fs start fn d = none) := by
  constructor
  · intro i hi hfound hleast
    unfold find_file
    rw [if_pos hdir]
    exact findFileLoop_found fs fn (d + 1) start i (Nat.lt_succ_of_le hi) hfound hleast
  · intro h
    unfold find_file
    rw [if_pos hdir]
    exact findFileLoop_none fs fn (d + 1) start (fun k hk => h k (Nat.lt_succ_iff.mp hk))

/-- Concrete snapshot: `/home/user/main.tex` is a file; the directories on
the way down to `/home/user/proj` exist. -/
def exFS : FS where
  isFile := fun p => p == ["home", "user", "main.tex"]
  isDir := fun p =>
    p == ["home", "user", "proj"] || p == ["home", "user"] || p == ["home"] || p == []

/-- Witness for C1: starting at `/home/user/proj`, the marker one step up is
found. -/
theorem find_file_spec_witness :
    find_file exFS ["home", "user", "proj"] "main.tex" 5 =
      some ["home", "user", "main.tex"] := by
  have h := (find_file_spec exFS ["home", "user", "proj"] "main.tex" 5 (by decide)).1
    1 (by decide) (by decide)
    (fun k hk => by
      have hk0 : k = 0 := Nat.lt_one_iff.mp hk
      subst hk0
      decide)
  simpa [ancestorAt, parent] using h

/-- C2: `find_fileE` is total with absence folded in — a non-directory
`start` yields `none` without raising, and an exception raised anywhere in
the upward traversal is caught and folded into the `none` outcome. -/
theorem find_fileE_total (fs : FSE) (start : List String) (fn : String) (d : Nat) :
    (fs.isDir start = false → find_fileE fs start fn d = none) ∧
    (∀ e, findFileLoopE fs fn (d + 1) start = .error e → find_fileE fs start fn d = none) := by
  constructor
  · intro h
    unfold find_fileE
    rw [h]
    rfl
  · intro e he
    unfold find_fileE
    by_cases hdir : fs.isDir start
    · rw [if_pos hdir, he]
    · rw [if_neg hdir]

/-- Fallible snapshot where every `is_file` query raises. -/
def errFS : FSE where
  isFile := fun _ => .error "io fault"
  isDir := fun p => p == ["d"]

/-- Witness for C2: on a snapshot whose queries raise, `find_fileE` still
returns `none`; on a non-directory start it returns `none`. -/
theorem find_fileE_total_witness :
    find_fileE errFS ["d"] "x" 5 = none ∧ find_fileE errFS ["nodir"] "x" 5 = none := by
  constructor
  · exact (find_fileE_total errFS ["d"] "x" 5).2 "io fault" rfl
  · exact (find_fileE_total errFS ["nodir"] "x" 5).1 (by decide)

/-- C3: `detect_project_root` is exactly `find_file` for `main.tex` at the
default depth 5, mapped through `parent`; in particular it is `none`
whenever `find_file` is. -/
theorem detect_project_root_spec (fs : FS) (start : List String) :
    detect_project_root fs start = Option.map parent (find_file fs start "main.tex" 5) := by
  unfold detect_project_root
  cases find_file fs start "main.tex" 5 <;> rfl

/-- C8: `is_valid_project_dir` holds exactly when `main.tex` is a file and
`format`, `output`, `text` are directories, all directly under `path`. -/
theorem is_valid_project_dir_spec (fs : FS) (path : List String) :
    is_valid_project_dir fs path = true ↔
      (fs.isFile (path ++ ["main.tex"]) = true ∧
       fs.isDir (path ++ ["format"]) = true ∧
       fs.isDir (path ++ ["output"]) = true ∧
       fs.isDir (path ++ ["text"]) = true) := by
  simp [is_valid_project_dir, required_files, required_dirs, List.all, Bool.and_eq_true,
    and_assoc]

/-!
Package-declaration parser (`src/texmgr/pkg/manager.py`). Lines are lists
of characters. The anchored regex
`\\usepackage(?:\[([^\]]*)\])?\{([^}]+)\}` used with `re.match` is
deterministic: `[^\]]*` cannot cross a `]` and `[^}]+` cannot cross a `}`,
so each group extends exactly to the first closing delimiter, and when the
optional bracket group is present but unclosed the empty alternative also
fails (the next character is `[`, not `{`). `matchUsepackageArgs` below is
that matcher, applied after the literal keyword.
-/

/-- Embedding of Python `str.strip()`: drop leading and trailing whitespace. -/
def strip (s : List Char) : List Char :=
  ((s.dropWhile Char.isWhitespace).reverse.dropWhile Char.isWhitespace).reverse

/-- Literal `\usepackage`, the declaration keyword (manager.py line 27). -/
def usepackageLit : List Char :=
  ['\\', 'u', 's', 'e', 'p', 'a', 'c', 'k', 'a', 'g', 'e']

/-- Split at the first occurrence of `c`: `some (before, after)` with `c`
not in `before`, or `none` when `c` is absent. This is how a greedy
negated character class followed by the literal `c` matches. -/
def breakAt (c : Char) : List Char → Option (List Char × List Char)
  | [] => none
  | x :: xs =>
    if x = c then some ([], xs)
    else Option.map (fun pr => (x :: pr.1, pr.2)) (breakAt c xs)

/-- Matcher for `\{([^}]+)\}`: a brace, a nonempty run of non-brace
characters, a closing brace; trailing characters are left unread. -/
def matchBraces (s : List Char) : Option (List Char) :=
  if s.head? = some '{' then
    match breakAt '}' s.tail with
    | some (names, _) => if names = [] then none else some names
    | none => none
  else none

/-- Matcher for `(?:\[([^\]]*)\])?\{([^}]+)\}`: the optional bracketed
options group followed by the mandatory braced names group. -/
def matchUsepackageArgs (s : List Char) : Option (Option (List Char) × List Char) :=
  if s.head? = some '[' then
    match breakAt ']' s.tail with
    | some (opts, rest2) =>
      match matchBraces rest2 with
      | some names => some (some opts, names)
      | none => none
    | none => none
  else
    match matchBraces s with
    | some names => some (none, names)
    | none => none

/-- Embedding of `parse_package_line(line)` (manager.py lines 12-37): strip
the line, match the anchored pattern, then split the names group on commas,
strip each token, drop empty tokens, and pair each survivor with the shared
options group. -/
def parse_package_line (line : List Char) : List (List Char × Option (List Char)) :=
  let s := strip line
  if usepackageLit.isPrefixOf s then
    match matchUsepackageArgs (s.drop usepackageLit.length) with
    | some (opts, names) =>
      List.map (fun t => (t, opts))
        (List.filter (fun t => !t.isEmpty) (List.map strip (names.splitOn ',')))
    | none => []
  else []

/-- Embedding of Python `str.splitlines()` for newline-separated text:
split on the newline character, without a trailing empty line. -/
def splitlines (s : List Char) : List (List Char) :=
  let parts := s.splitOn '\n'
  if parts.getLast? = some [] then parts.dropLast else parts

/-- Per-line step of the `parse_packages` loop (manager.py lines 56-61):
strip the line and, when it starts with the keyword, parse it. -/
def parseLineStep (l : List Char) : List (List Char × Option (List Char)) :=
  let s := strip l
  if usepackageLit.isPrefixOf s then parse_package_line s else []

/-- Loop of `parse_packages` over an explicit list of lines, accumulating
the pairs of each line in order. -/
def parseLinesList (ls : List (List Char)) : List (List Char × Option (List Char)) :=
  (ls.map parseLineStep).flatten

/-- Embedding of `parse_packages(content)` (manager.py lines 39-75). -/
def parse_packages (content : List Char) : List (List Char × Option (List Char)) :=
  parseLinesList (splitlines content)

-- Helper lemmas about `strip`.

theorem dropWhile_head_not (p : Char → Bool) (l : List Char) :
    ∀ x, (l.dropWhile p).head? = some x → p x = false := by
  induction l with
  | nil => intro x h; exact absurd h (by simp)
  | cons a l ih =>
    intro x h
    rw [List.dropWhile_cons] at h
    by_cases hp : p a
    · rw [if_pos hp] at h
      exact ih x h
    · rw [if_neg hp] at h
      simp only [List.head?_cons, Option.some.injEq] at h
      rw [← h]
      exact Bool.eq_false_iff.mpr hp

theorem dropWhile_eq_self_of_head (p : Char → Bool) (l : List Char)
    (h : ∀ x, l.head? = some x → p x = false) : l.dropWhile p = l := by
  cases l with
  | nil => rfl
  | cons a l =>
    rw [List.dropWhile_cons, if_neg]
    simp [h a rfl]

theorem dropWhile_getLast_of_ne_nil (p : Char → Bool) (l : List Char) :
    l.dropWhile p ≠ [] → (l.dropWhile p).getLast? = l.getLast? := by
  induction l with
  | nil => intro h; exact absurd rfl h
  | cons a l ih =>
    intro h
    rw [List.dropWhile_cons] at h ⊢
    by_cases hp : p a
    · rw [if_pos hp] at h ⊢
      have hl : l ≠ [] := by
        intro hnil
        rw [hnil] at h
        exact h rfl
      rw [ih h]
      cases l with
      | nil => exact absurd rfl hl
      | cons b l2 => rw [List.getLast?_cons_cons]
    · rw [if_neg hp]

theorem strip_head_not (l : List Char) :
    ∀ x, (strip l).head? = some x → Char.isWhitespace x = false := by
  intro x h
  unfold strip at h
  rw [List.head?_reverse] at h
  have hne : ((l.dropWhile Char.isWhitespace).reverse.dropWhile Char.isWhitespace) ≠ [] := by
    intro hnil
    rw [hnil] at h
    exact absurd h (by simp)
  rw [dropWhile_getLast_of_ne_nil Char.isWhitespace _ hne, List.getLast?_reverse] at h
  exact dropWhile_head_not Char.isWhitespace l x h

theorem strip_last_not (l : List Char) :
    ∀ x, (strip l).getLast? = some x → Char.isWhitespace x = false := by
  intro x h
  unfold strip at h
  rw [List.getLast?_reverse] at h
  exact dropWhile_head_not Char.isWhitespace _ x h

theorem strip_idem (l : List Char) : strip (strip l) = strip l := by
  have h1 : (strip l).dropWhile Char.isWhitespace = strip l :=
    dropWhile_eq_self_of_head _ _ (strip_head_not l)
  have h2 : (strip l).reverse.dropWhile Char.isWhitespace = (strip l).reverse := by
    apply dropWhile_eq_self_of_head
    intro x hx
    rw [List.head?_reverse] at hx
    exact strip_last_not l x hx
  show ((((strip l).dropWhile Char.isWhitespace).reverse.dropWhile Char.isWhitespace).reverse : List Char) = strip l
  rw [h1, h2, List.reverse_reverse]

-- Helper lemmas about how the parser handles lines.

theorem parse_package_line_not_candidate (l : List Char)
    (h : usepackageLit.isPrefixOf (strip l) = false) : parse_package_line l = [] := by
  simp [parse_package_line, h]

theorem parse_package_line_no_match (l : List Char)
    (h : matchUsepackageArgs ((strip l).drop usepackageLit.length) = none) :
    parse_package_line l = [] := by
  by_cases hc : usepackageLit.isPrefixOf (strip l)
  · simp [parse_package_line, hc, h]
  · simp [parse_package_line, hc]

theorem parseLineStep_eq (l : List Char) :
    parseLineStep l = parse_package_line (strip l) := by
  by_cases hc : usepackageLit.isPrefixOf (strip l)
  · simp [parseLineStep, hc]
  · have h2 : usepackageLit.isPrefixOf (strip (strip l)) = false := by
      rw [strip_idem]
      exact Bool.eq_false_iff.mpr hc
    rw [parse_package_line_not_candidate (strip l) h2]
    simp [parseLineStep, hc]

theorem parse_package_line_mem (line : List Char) (p : List Char × Option (List Char))
    (hp : p ∈ parse_package_line line) :
    ∃ opts names,
      matchUsepackageArgs ((strip line).drop usepackageLit.length) = some (opts, names) ∧
      p.2 = opts ∧
      p.1 ∈ List.filter (fun t => !t.isEmpty) (List.map strip (names.splitOn ',')) := by
  by_cases hc : usepackageLit.isPrefixOf (strip line)
  · simp only [parse_package_line, hc, if_true] at hp
    cases hmatch : matchUsepackageArgs ((strip line).drop usepackageLit.length) with
    | none => rw [hmatch] at hp; exact absurd hp (by simp)
    | some pr =>
      obtain ⟨opts, names⟩ := pr
      rw [hmatch] at hp
      obtain ⟨t, ht, hpt⟩ := List.mem_map.mp hp
      exact ⟨opts, names, rfl, by rw [← hpt], by rw [← hpt]; exact ht⟩
  · rw [parse_package_line_not_candidate line (Bool.eq_false_iff.mpr hc)] at hp
    exact absurd hp (by simp)

/-- Example content for C4: three declarations over two lines, in
non-alphabetical order and with a duplicate name. -/
def exC4Content : List Char :=
  ['\\', 'u', 's', 'e', 'p', 'a', 'c', 'k', 'a', 'g', 'e', '{', 'b', '}', '\n',
   '\\', 'u', 's', 'e', 'p', 'a', 'c', 'k', 'a', 'g', 'e', '{', 'a', ',', 'b', '}', '\n']

/-- C4: the output of `parse_packages` is the in-order concatenation of the
per-line results — line order and within-line order are preserved, nothing
is sorted or deduplicated; concretely, input `\usepackage{b}` then
`\usepackage{a,b}` yields b, a, b in that order, with the duplicate kept. -/
theorem parse_packages_order :
    (∀ content, parse_packages content =
      ((splitlines content).map (fun l => parse_package_line (strip l))).flatten) ∧
    parse_packages exC4Content = [(['b'], none), (['a'], none), (['b'], none)] := by
  constructor
  · intro content
    unfold parse_packages parseLinesList
    have hf : parseLineStep = fun l => parse_package_line (strip l) := funext parseLineStep_eq
    rw [hf]
  · decide

/-- Example line for C5: `\usepackage[opt]{a, b,, c}` with an empty slot
between consecutive commas. -/
def exC5Line : List Char :=
  ['\\', 'u', 's', 'e', 'p', 'a', 'c', 'k', 'a', 'g', 'e',
   '[', 'o', 'p', 't', ']', '{', 'a', ',', ' ', 'b', ',', ',', ' ', 'c', '}']

/-- C5: every pair emitted from one line carries the identical options
value; every emitted name is a nonempty, already-trimmed token; and
`\usepackage[opt]{a, b,, c}` yields exactly (a,opt), (b,opt), (c,opt) with
no empty-name entry. -/
theorem parse_package_line_spec :
    (∀ line p q, p ∈ parse_package_line line → q ∈ parse_package_line line → p.2 = q.2) ∧
    (∀ line p, p ∈ parse_package_line line → p.1 ≠ [] ∧ strip p.1 = p.1) ∧
    parse_package_line exC5Line =
      [(['a'], some ['o', 'p', 't']), (['b'], some ['o', 'p', 't']),
       (['c'], some ['o', 'p', 't'])] := by
  refine ⟨?_, ?_, by decide⟩
  · intro line p q hp hq
    obtain ⟨opts, names, hm, hp2, _⟩ := parse_package_line_mem line p hp
    obtain ⟨opts2, names2, hm2, hq2, _⟩ := parse_package_line_mem line q hq
    rw [hm] at hm2
    rw [hp2, hq2]
    exact congrArg Prod.fst (Option.some.inj hm2)
  · intro line p hp
    obtain ⟨opts, names, _, _, hmem⟩ := parse_package_line_mem line p hp
    have hfil := List.mem_filter.mp hmem
    constructor
    · intro hnil
      have := hfil.2
      rw [hnil] at this
      simp at this
    · obtain ⟨r, _, hr⟩ := List.mem_map.mp hfil.1
      rw [← hr, strip_idem]

/-- Witness for C5: the first two pairs parsed from the example line carry
the same options value. -/
theorem parse_package_line_spec_witness :
    ((['a'], some ['o', 'p', 't']) : List Char × Option (List Char)).2 =
      ((['b'], some ['o', 'p', 't']) : List Char × Option (List Char)).2 :=
  parse_package_line_spec.1 exC5Line _ _ (by decide) (by decide)

/-- Example content for C6: a malformed candidate (empty name clause whose
`[^}]+` group cannot match), then a well-formed declaration. -/
def exC6Content : List Char :=
  ['\\', 'u', 's', 'e', 'p', 'a', 'c', 'k', 'a', 'g', 'e', '{', '}', '\n',
   '\\', 'u', 's', 'e', 'p', 'a', 'c', 'k', 'a', 'g', 'e', '{', 'o', 'k', '}', '\n']

/-- C6: a non-candidate line (keyword not a prefix after trimming) and a
candidate that fails the pattern each contribute zero pairs, and dropping
such a line anywhere leaves the parse of all other lines unchanged;
concretely `\usepackage{}` then `\usepackage{ok}` parses to just (ok, —). -/
theorem parse_packages_skip_spec :
    (∀ l, usepackageLit.isPrefixOf (strip l) = false → parse_package_line l = []) ∧
    (∀ l, matchUsepackageArgs ((strip l).drop usepackageLit.length) = none →
      parse_package_line l = []) ∧
    (∀ l ls1 ls2, parse_package_line (strip l) = [] →
      parseLinesList (ls1 ++ l :: ls2) = parseLinesList (ls1 ++ ls2)) ∧
    parse_packages exC6Content = [(['o', 'k'], none)] := by
  refine ⟨parse_package_line_not_candidate, parse_package_line_no_match, ?_, by decide⟩
  intro l ls1 ls2 h
  unfold parseLinesList
  rw [List.map_append, List.map_append, List.map_cons, List.flatten_append,
    List.flatten_append, List.flatten_cons, parseLineStep_eq, h, List.nil_append]

/-- Witness for C6: a line that is not a candidate yields no pairs. -/
theorem parse_packages_skip_spec_witness : parse_package_line ['x'] = [] :=
  parse_packages_skip_spec.1 ['x'] (by decide)

-- Machinery for C7: a well-formed declaration line with arbitrary trailing text.

/-- Rendering of the optional bracketed options clause. -/
def optClause : Option (List Char) → List Char
  | some o => '[' :: (o ++ [']'])
  | none => []

/-- A declaration line `\usepackage[opts]{names}trail`: keyword, optional
options clause, braced names, then arbitrary trailing characters. -/
def mkLine (opts : Option (List Char)) (names trail : List Char) : List Char :=
  usepackageLit ++ optClause opts ++ '{' :: (names ++ '}' :: trail)

theorem isPrefixOf_append_self (l rest : List Char) : l.isPrefixOf (l ++ rest) = true := by
  induction l with
  | nil => simp [List.isPrefixOf]
  | cons a l ih => simp [List.isPrefixOf, ih]

theorem breakAt_append (c : Char) (u v : List Char) (h : c ∉ u) :
    breakAt c (u ++ c :: v) = some (u, v) := by
  induction u with
  | nil => simp [breakAt]
  | cons x u ih =>
    have hx : x ≠ c := fun he => h (he ▸ List.mem_cons_self x u)
    have hu : c ∉ u := fun hm => h (List.mem_cons_of_mem x hm)
    simp [breakAt, hx, ih hu]

theorem matchBraces_append (names t : List Char) (hne : names ≠ []) (hbr : '}' ∉ names) :
    matchBraces ('{' :: (names ++ '}' :: t)) = some names := by
  simp [matchBraces, breakAt_append '}' names t hbr, hne]

theorem matchUsepackageArgs_some (opts : Option (List Char)) (names t : List Char)
    (hopts : ∀ o, opts = some o → ']' ∉ o) (hne : names ≠ []) (hbr : '}' ∉ names) :
    matchUsepackageArgs (optClause opts ++ '{' :: (names ++ '}' :: t)) = some (opts, names) := by
  cases opts with
  | none =>
    simp [optClause, matchUsepackageArgs, matchBraces_append names t hne hbr]
  | some o =>
    have ho : ']' ∉ o := hopts o rfl
    have harr : optClause (some o) ++ '{' :: (names ++ '}' :: t) =
        '[' :: (o ++ ']' :: ('{' :: (names ++ '}' :: t))) := by
      simp [optClause]
    rw [harr]
    simp [matchUsepackageArgs, breakAt_append ']' o _ ho, matchBraces_append names t hne hbr]

theorem dropWhile_append_cons (p : Char → Bool) (u : List Char) (c : Char) (v : List Char)
    (hc : p c = false) : List.dropWhile p (u ++ c :: v) = List.dropWhile p u ++ c :: v := by
  induction u with
  | nil => simp [List.dropWhile_cons, hc]
  | cons x u ih =>
    by_cases hx : p x
    · simp [List.dropWhile_cons, hx, ih]
    · simp [List.dropWhile_cons, hx]

theorem strip_mkLine (opts : Option (List Char)) (names trail : List Char) :
    strip (mkLine opts names trail) =
      mkLine opts names ((trail.reverse.dropWhile Char.isWhitespace).reverse) := by
  have hsplit : ∀ t : List Char, mkLine opts names t =
      (usepackageLit ++ optClause opts ++ '{' :: names) ++ '}' :: t := by
    intro t
    simp [mkLine, List.append_assoc]
  have hlead : List.dropWhile Char.isWhitespace (mkLine opts names trail) =
      mkLine opts names trail := by
    apply dropWhile_eq_self_of_head
    intro x hx
    simp only [mkLine, usepackageLit, List.cons_append, List.head?_cons,
      Option.some.injEq] at hx
    rw [← hx]
    decide
  unfold strip
  rw [hlead, hsplit trail, List.reverse_append, List.reverse_cons, List.append_assoc,
    List.singleton_append,
    dropWhile_append_cons Char.isWhitespace trail.reverse '}' _ (by decide),
    List.reverse_append, List.reverse_cons, List.reverse_reverse, hsplit]
  simp [List.append_assoc]

theorem parse_mkLine (opts : Option (List Char)) (names trail : List Char)
    (hopts : ∀ o, opts = some o → ']' ∉ o) (hne : names ≠ []) (hbr : '}' ∉ names) :
    parse_package_line (mkLine opts names trail) =
      List.map (fun t => (t, opts))
        (List.filter (fun t => !t.isEmpty) (List.map strip (names.splitOn ','))) := by
  have hsplit : mkLine opts names ((trail.reverse.dropWhile Char.isWhitespace).reverse) =
      usepackageLit ++ (optClause opts ++ '{' ::
        (names ++ '}' :: (trail.reverse.dropWhile Char.isWhitespace).reverse)) := by
    simp [mkLine]
  simp only [parse_package_line, strip_mkLine, hsplit, isPrefixOf_append_self, if_true,
    List.drop_left,
    matchUsepackageArgs_some opts names _ hopts hne hbr]

/-- Example line for C7: `\usepackage[opt1,opt2]{pkg} % comment`. -/
def exC7Line : List Char :=
  ['\\', 'u', 's', 'e', 'p', 'a', 'c', 'k', 'a', 'g', 'e',
   '[', 'o', 'p', 't', '1', ',', 'o', 'p', 't', '2', ']',
   '{', 'p', 'k', 'g', '}', ' ', '%', ' ', 'c', 'o', 'm', 'm', 'e', 'n', 't']

/-- C7: for a well-formed declaration, any trailing text after the closing
brace is ignored — the parse equals the parse of the line without the
trailing text; concretely `\usepackage[opt1,opt2]{pkg} % comment` parses to
(pkg, opt1,opt2) with the trailing comment dropped. -/
theorem parse_package_line_trailing (opts : Option (List Char)) (names trail : List Char)
    (hopts : ∀ o, opts = some o → ']' ∉ o) (hne : names ≠ []) (hbr : '}' ∉ names) :
    parse_package_line (mkLine opts names trail) = parse_package_line (mkLine opts names []) ∧
    parse_package_line exC7Line =
      [(['p', 'k', 'g'], some ['o', 'p', 't', '1', ',', 'o', 'p', 't', '2'])] := by
  constructor
  · rw [parse_mkLine opts names trail hopts hne hbr, parse_mkLine opts names [] hopts hne hbr]
  · decide

/-- Witness for C7: the example line with its trailing comment parses the
same as the line truncated at the closing brace. -/
theorem parse_package_line_trailing_witness :
    parse_package_line (mkLine (some ['o', 'p', 't', '1', ',', 'o', 'p', 't', '2'])
        ['p', 'k', 'g'] [' ', '%', ' ', 'c', 'o', 'm', 'm', 'e', 'n', 't']) =
      parse_package_line (mkLine (some ['o', 'p', 't', '1', ',', 'o', 'p', 't', '2'])
        ['p', 'k', 'g'] []) :=
  (parse_package_line_trailing (some ['o', 'p', 't', '1', ',', 'o', 'p', 't', '2'])
    ['p', 'k', 'g'] [' ', '%', ' ', 'c', 'o', 'm', 'm', 'e', 'n', 't']
    (fun o ho => by
      rw [← Option.some.inj ho]
      decide)
    (by decide) (by decide)).1

/-!
Installer driver (`manager.py` lines 102-169). The collaborators
`check_command_exists` and `run_command` live in `utils/cmds.py`, which is
not among the sources; they and the declaration-file read are modelled as
an oracle environment. A raised exception is an `.error` value; package
names, options and messages are lists of characters as in the parser.
-/

/-- Token `tlmgr` of the external command (manager.py line 128). -/
def tlmgrTok : List Char := ['t', 'l', 'm', 'g', 'r']

/-- Token `install` of the external command (manager.py line 128). -/
def installTok : List Char := ['i', 'n', 's', 't', 'a', 'l', 'l']

/-- Subcommand name `install` dispatched by `handle_package_command`. -/
def installCmd : List Char := ['i', 'n', 's', 't', 'a', 'l', 'l']

/-- Message raised when `tlmgr` is absent (manager.py line 119). -/
def tlmgrMissingMsg : List Char :=
  ['t', 'l', 'm', 'g', 'r', ' ', 'n', 'o', 't', ' ', 'f', 'o', 'u', 'n', 'd']

/-- Modelled from the spec: the external collaborators consumed by the
package manager — `check_command_exists("tlmgr")` and `run_command` from
`utils/cmds.py` (a module absent from the sources), and the outcome of
`read_packages_file()` (the parsed declaration list, or the
`FileOperationError` it raises). `runCommand cmd` is the external
package-manager invocation, `.error` when it fails. -/
structure PkgEnv where
  tlmgrExists : Bool
  runCommand : List (List Char) → Except (List Char) Unit
  readPackages : Except (List Char) (List (List Char × Option (List Char)))

/-- Embedding of `install_package(package, options)` (manager.py lines
102-132): the result (a raised `PackageError` is `.error`) paired with the
list of external commands invoked. The options argument is only logged
(line 124), so it appears in no command. -/
def install_package (env : PkgEnv) (package : List Char) (options : Option (List Char)) :
    Except (List Char) Unit × List (List (List Char)) :=
  if env.tlmgrExists then
    match env.runCommand [tlmgrTok, installTok, package] with
    | .ok _ => (.ok (), [[tlmgrTok, installTok, package]])
    | .error _ => (.error package, [[tlmgrTok, installTok, package]])
  else (.error tlmgrMissingMsg, [])

/-- Embedding of the per-package loop of `handle_package_command`
(manager.py lines 157-162): each `PackageError` is caught (warned) and the
loop continues; the accumulated value is the trace of invoked commands. -/
def installLoop (env : PkgEnv) :
    List (List Char × Option (List Char)) → Except (List Char) (List (List (List Char)))
  | [] => .ok []
  | (pkg, opts) :: rest =>
    match (install_package env pkg opts).1 with
    | .ok _ =>
      Except.map (fun tr => (install_package env pkg opts).2 ++ tr) (installLoop env rest)
    | .error _ =>
      Except.map (fun tr => (install_package env pkg opts).2 ++ tr) (installLoop env rest)

/-- Embedding of `handle_package_command(command, args)` (manager.py lines
134-169): for `install`, read the declarations and install each; the outer
`except` maps any escaping exception to exit code 1; a command other than
`install` falls through (Python returns `None`). -/
def handle_package_command (env : PkgEnv) (command : List Char) : Option Int :=
  if command = installCmd then
    match env.readPackages with
    | .error _ => some 1
    | .ok packages =>
      match installLoop env packages with
      | .ok _ => some 0
      | .error _ => some 1
  else none

-- Helper lemmas about the installer loop.

theorem installLoop_isOk (env : PkgEnv) :
    ∀ l, ∃ tr, installLoop env l = .ok tr := by
  intro l
  induction l with
  | nil => exact ⟨[], rfl⟩
  | cons pr rest ih =>
    obtain ⟨pkg, opts⟩ := pr
    obtain ⟨tr, htr⟩ := ih
    cases h1 : (install_package env pkg opts).1 with
    | ok u =>
      refine ⟨(install_package env pkg opts).2 ++ tr, ?_⟩
      simp [installLoop, h1, htr, Except.map]
    | error e =>
      refine ⟨(install_package env pkg opts).2 ++ tr, ?_⟩
      simp [installLoop, h1, htr, Except.map]

theorem installLoop_trace (env : PkgEnv) (ht : env.tlmgrExists = true) :
    ∀ l, installLoop env l = .ok (l.map (fun pr => [tlmgrTok, installTok, pr.1])) := by
  intro l
  induction l with
  | nil => rfl
  | cons pr rest ih =>
    obtain ⟨pkg, opts⟩ := pr
    have h2 : (install_package env pkg opts).2 = [[tlmgrTok, installTok, pkg]] := by
      unfold install_package
      rw [if_pos ht]
      cases env.runCommand [tlmgrTok, installTok, pkg] <;> rfl
    cases h1 : (install_package env pkg opts).1 with
    | ok u => simp [installLoop, h1, ih, Except.map, h2]
    | error e => simp [installLoop, h1, ih, Except.map, h2]

/-- C9: `install_package` invokes the external package manager only as
`tlmgr install <package>` — every invoked command is exactly that token
list — and its whole behaviour is independent of the options value, which
is logged but never forwarded. -/
theorem install_package_cmd (env : PkgEnv) (package : List Char) (options : Option (List Char)) :
    (∀ c, c ∈ (install_package env package options).2 →
      c = [tlmgrTok, installTok, package]) ∧
    install_package env package options = install_package env package none := by
  constructor
  · intro c hc
    unfold install_package at hc
    by_cases ht : env.tlmgrExists
    · rw [if_pos ht] at hc
      cases h : env.runCommand [tlmgrTok, installTok, package] with
      | ok u => rw [h] at hc; simpa using hc
      | error e => rw [h] at hc; simpa using hc
    · rw [if_neg ht] at hc
      exact absurd hc (by simp)
  · rfl

/-- Concrete environment for the C9 witness: the external invocation fails. -/
def exEnvC9 : PkgEnv where
  tlmgrExists := true
  runCommand := fun _ => .error ['n', 'o']
  readPackages := .ok []

/-- Witness for C9: even when the invocation fails, the one command issued
for package `a` is `tlmgr install a`. -/
theorem install_package_cmd_witness :
    ([['t', 'l', 'm', 'g', 'r'], ['i', 'n', 's', 't', 'a', 'l', 'l'], ['a']] : List (List Char)) =
      [tlmgrTok, installTok, ['a']] :=
  (install_package_cmd exEnvC9 ['a'] (some ['o', 'p', 't'])).1
    [['t', 'l', 'm', 'g', 'r'], ['i', 'n', 's', 't', 'a', 'l', 'l'], ['a']] (by decide)

/-- Concrete environment for the C10 witness: `tlmgr` is absent, so every
individual installation raises `PackageError`, while the declaration file
reads fine with two packages. -/
def exEnvC10 : PkgEnv where
  tlmgrExists := false
  runCommand := fun _ => .error ['n', 'o']
  readPackages := .ok [(['a'], none), (['b'], none)]

/-- C10: for the `install` command, when the declarations are read the exit
code is 0 regardless of how many individual installations fail (each
`PackageError` is caught and the loop continues — when `tlmgr` exists every
declared package is attempted, in order); only a failure of the
pre-loop read yields exit code 1. -/
theorem handle_package_command_spec (env : PkgEnv) :
    (∀ pkgs, env.readPackages = .ok pkgs →
      handle_package_command env installCmd = some 0 ∧
      (env.tlmgrExists = true →
        installLoop env pkgs = .ok (pkgs.map (fun pr => [tlmgrTok, installTok, pr.1])))) ∧
    (∀ e, env.readPackages = .error e →
      handle_package_command env installCmd = some 1) := by
  constructor
  · intro pkgs hread
    constructor
    · unfold handle_package_command
      rw [if_pos rfl, hread]
      obtain ⟨tr, htr⟩ := installLoop_isOk env pkgs
      simp [htr]
    · intro ht
      exact installLoop_trace env ht pkgs
  · intro e hread
    unfold handle_package_command
    rw [if_pos rfl, hread]

/-- Witness for C10: with every installation failing (`tlmgr` absent) and
two declared packages, the install command still exits 0. -/
theorem handle_package_command_spec_witness :
    handle_package_command exEnvC10 installCmd = some 0 :=
  ((handle_package_command_spec exEnvC10).1 [(['a'], none), (['b'], none)] rfl).1
